import Mathlib

/-!
Verification of the PII sanitizer engine (`src/index.ts`, class `Sanitizer`).

Shallow embedding conventions:
* JS strings are modelled as Lean `String` (a list of Unicode scalar values);
  operations on their characters work on `String.data`.  JS `.length` counts
  UTF-16 code units; for the strings the classifier handles this coincides
  with the character count, and we model it as `data.length`.
* JS `undefined` is a constructor of the result value type (`Value.undef`):
  the walker really produces it (its catch-all branch falls off the end of
  the function).
* Thrown JS exceptions are modelled with `Except JsErr`.
* `node:crypto` primitives are modelled at the byte level (bytes are `Nat`
  with an explicit `< 256` invariant).  AES-256-CTR under the key derived
  from `signingSecret` is a keystream XOR; the keystream (a function of the
  IV and the byte position) is kept abstract as a parameter `ks`, since the
  claims depend only on the XOR structure, never on AES internals.
  `randomBytes(16)` is modelled by a stream of 16-byte IVs carried in a
  state `RandState` whose invariant records the length/byte-range guarantee
  of the real RNG.
* `Buffer` / UTF-8 conversion (`cipher.update(val, "utf8")`,
  `buf.toString("utf8")`) is modelled by an executable UTF-8 encoder and a
  total (lossy) decoder, faithful on canonical encodings.
* JS `RegExp` values configured in `regexToSanitize` are modelled by their
  match interface: a function returning the decomposition of a string at
  its first match (`GPattern`), with the invariants every real global
  regex match satisfies (the match is a non-empty infix at the split
  point).  `String.prototype.replace` with a global regex is the induced
  repeated-replacement recursion.
-/

/-- The `PiiType` union of the source. -/
inductive PiiType
  | pan_card
  | credit_card
  | cvv
  | password
  | email
  | phone
  | aadhar
  | custom
deriving DecidableEq, Repr

/-- Runtime exceptions the embedded code can throw.
`undefinedToLowerCase` is the TypeError from `key.toLowerCase()` when
`key` is `undefined`; `bufferFromUndefined` the TypeError from
`Buffer.from(undefined, "hex")`; `invalidIvLength` the error
`createDecipheriv` raises when the IV is not 16 bytes. -/
inductive JsErr
  | undefinedToLowerCase
  | bufferFromUndefined
  | invalidIvLength
deriving DecidableEq, Repr

/-- JSON-like values (input side) together with `undef`, which the walker
can produce.  JS numbers are floats; they are only ever passed through or
dropped whole, so an `Int` payload suffices for the embedding. -/
inductive Value
  | obj : List (String × Value) → Value
  | arr : List Value → Value
  | str : String → Value
  | num : Int → Value
  | bool : Bool → Value
  | null : Value
  | undef : Value
deriving Repr

/-- JS `String.prototype.toLowerCase`, restricted to ASCII letters (the
field names the classifier inspects are ASCII). -/
def jsToLower (s : String) : String := ⟨s.data.map Char.toLower⟩

/-- Substring test: JS `/needle/.test(hay)` for a literal needle. -/
def containsSub (needle : List Char) : List Char → Bool
  | [] => needle.isEmpty
  | c :: rest => needle.isPrefixOf (c :: rest) || containsSub needle rest

/-- JS `/^\d{n}/.test(value)`: the value starts with at least `n` ASCII
digits. -/
def digitLead (n : Nat) (s : List Char) : Bool :=
  decide (n ≤ s.length) && (s.take n).all Char.isDigit

/-- JS `/\d{2,4}/.test(value)`: the regex has a match iff the value has two
consecutive ASCII digits somewhere. -/
def hasTwoConsecutiveDigits : List Char → Bool
  | c1 :: c2 :: rest =>
    (c1.isDigit && c2.isDigit) || hasTwoConsecutiveDigits (c2 :: rest)
  | _ => false

/-- JS `/^[A-Z]{5}\d{4}[A-Z]$/.test(value)`. -/
def panValueTest (s : List Char) : Bool :=
  decide (s.length = 10) && (s.take 5).all Char.isUpper
    && ((s.drop 5).take 4).all Char.isDigit && (s.drop 9).all Char.isUpper

/-- Character class `[a-zA-Z0-9._%+-]` of the email regex. -/
def isLocalChar (c : Char) : Bool :=
  c.isUpper || c.isLower || c.isDigit || c == '.' || c == '_' || c == '%'
    || c == '+' || c == '-'

/-- Character class `[a-zA-Z0-9]`. -/
def isAlnumChar (c : Char) : Bool := c.isUpper || c.isLower || c.isDigit

/-- Character class `[a-zA-Z]`. -/
def isAsciiLetter (c : Char) : Bool := c.isUpper || c.isLower

/-- JS `/^[a-zA-Z0-9._%+-]+@[a-zA-Z0-9]+\.[a-zA-Z]{2,}$/.test(value)`.
Because `@` is not in the local class, `.` not in the domain class, and the
tail is anchored, the regex is equivalent to this single maximal-munch
parse. -/
def emailTest (s : List Char) : Bool :=
  let l := s.takeWhile isLocalChar
  match s.drop l.length with
  | '@' :: r2 =>
    decide (l ≠ []) &&
      (let d := r2.takeWhile isAlnumChar
       match r2.drop d.length with
       | '.' :: t =>
         decide (d ≠ []) && decide (2 ≤ t.length) && t.all isAsciiLetter
       | _ => false)
  | _ => false

/-- Luhn doubling step: double, subtract 9 when the result exceeds 9. -/
def luhnDouble (d : Nat) : Nat :=
  let n := d * 2
  if n > 9 then n - 9 else n

/-- The loop of `luhnAlgorithm`, over the digit values right-to-left with
the alternation flag. -/
def luhnSum : List Nat → Bool → Nat
  | [], _ => 0
  | d :: rest, alt => (if alt then luhnDouble d else d) + luhnSum rest (!alt)

/-- Numeric value of an ASCII digit character (`parseInt(c, 10)`). -/
def charDigit (c : Char) : Nat := c.toNat - 48

/-- `Sanitizer.luhnAlgorithm`.  In the source `parseInt` yields `NaN` on a
non-digit character, `NaN` propagates through the sum, and `NaN % 10 === 0`
is false; this is modelled by the all-digits guard. -/
def luhnAlgorithm (num : List Char) : Bool :=
  num.all Char.isDigit && (luhnSum (num.reverse.map charDigit) false) % 10 == 0

/-- `Sanitizer.detectPatternToSanitize`: the ordered first-match classifier.
`/pan|pan_card/` is equivalent to containing `"pan"`, and `/\d{2,4}/` to
containing two consecutive digits. -/
def detectPatternToSanitize (key : String) (value : String) : PiiType :=
  let lowerKey := (jsToLower key).data
  let v := value.data
  if panValueTest v || containsSub "pan".data lowerKey then .pan_card
  else if digitLead 10 v || containsSub "mobile".data lowerKey
      || containsSub "phone".data lowerKey then .phone
  else if digitLead 12 v then .aadhar
  else if containsSub "cvv".data lowerKey || containsSub "cvc".data lowerKey
      || containsSub "cvn".data lowerKey || containsSub "cid".data lowerKey
      || hasTwoConsecutiveDigits v then .cvv
  else if emailTest v then .email
  else if containsSub "password".data lowerKey
      || containsSub "pwd".data lowerKey
      || containsSub "passphrase".data lowerKey then .password
  else if containsSub "credit".data lowerKey
      || containsSub "debit".data lowerKey
      || (decide (13 < v.length) && decide (v.length < 19)
          && luhnAlgorithm v) then .credit_card
  else .custom

example : detectPatternToSanitize "card" "4111111111111111" = .phone := rfl
example : detectPatternToSanitize "id" "AAAAA1234A" = .pan_card := rfl
example : detectPatternToSanitize "x" "john@example.com" = .email := rfl
example : detectPatternToSanitize "username" "JohnDoe" = .custom := rfl

/-- UTF-8 encoding of one Unicode scalar value (what
`cipher.update(val, "utf8")` does per character). -/
def utf8EncodeChar (c : Char) : List Nat :=
  let n := c.toNat
  if n < 128 then [n]
  else if n < 2048 then [192 + n / 64, 128 + n % 64]
  else if n < 65536 then
    [224 + n / 4096, 128 + (n / 64) % 64, 128 + n % 64]
  else
    [240 + n / 262144, 128 + (n / 4096) % 64, 128 + (n / 64) % 64, 128 + n % 64]

/-- UTF-8 encoding of a character list. -/
def utf8Encodes (s : List Char) : List Nat := s.flatMap utf8EncodeChar

/-- Is `b` a UTF-8 continuation byte. -/
def utf8Cont (b : Nat) : Bool := decide (128 ≤ b) && decide (b < 192)

/-- Total UTF-8 decoder modelling `buf.toString("utf8")`: on canonical
encodings it recovers the characters; on invalid bytes Node substitutes
U+FFFD, modelled here by emitting U+FFFD and skipping one byte. -/
def utf8DecodeLossy : List Nat → List Char
  | [] => []
  | b :: bs =>
    if b < 128 then Char.ofNat b :: utf8DecodeLossy bs
    else
      match bs with
      | b2 :: bs2 =>
        if 194 ≤ b ∧ b < 224 ∧ utf8Cont b2 then
          Char.ofNat ((b - 192) * 64 + (b2 - 128)) :: utf8DecodeLossy bs2
        else
          match bs2 with
          | b3 :: bs3 =>
            if 224 ≤ b ∧ b < 240 ∧ utf8Cont b2 ∧ utf8Cont b3 then
              Char.ofNat ((b - 224) * 4096 + (b2 - 128) * 64 + (b3 - 128))
                :: utf8DecodeLossy bs3
            else
              match bs3 with
              | b4 :: bs4 =>
                if 240 ≤ b ∧ b < 245 ∧ utf8Cont b2 ∧ utf8Cont b3 ∧ utf8Cont b4 then
                  Char.ofNat ((b - 240) * 262144 + (b2 - 128) * 4096
                      + (b3 - 128) * 64 + (b4 - 128)) :: utf8DecodeLossy bs4
                else Char.ofNat 65533 :: utf8DecodeLossy (b2 :: b3 :: b4 :: bs4)
              | [] => Char.ofNat 65533 :: utf8DecodeLossy (b2 :: b3 :: [])
          | [] => Char.ofNat 65533 :: utf8DecodeLossy (b2 :: [])
      | [] => Char.ofNat 65533 :: utf8DecodeLossy []
termination_by bs => bs.length
decreasing_by all_goals (simp_all; try omega)

/-- Lowercase hex digit for a nibble (`Buffer.prototype.toString("hex")`). -/
def hexDigitChar : Nat → Char
  | 0 => '0' | 1 => '1' | 2 => '2' | 3 => '3' | 4 => '4'
  | 5 => '5' | 6 => '6' | 7 => '7' | 8 => '8' | 9 => '9'
  | 10 => 'a' | 11 => 'b' | 12 => 'c' | 13 => 'd' | 14 => 'e'
  | _ => 'f'

/-- Value of a hex digit character; Node accepts both cases. -/
def hexDigitVal (c : Char) : Option Nat :=
  let n := c.toNat
  if 48 ≤ n ∧ n ≤ 57 then some (n - 48)
  else if 97 ≤ n ∧ n ≤ 102 then some (n - 87)
  else if 65 ≤ n ∧ n ≤ 70 then some (n - 55)
  else none

/-- Two-character hex rendering of one byte. -/
def hexByte (b : Nat) : List Char := [hexDigitChar (b / 16), hexDigitChar (b % 16)]

/-- `buf.toString("hex")`. -/
def hexEncode (bs : List Nat) : List Char := bs.flatMap hexByte

/-- `Buffer.from(str, "hex")`: parses hex pairs and truncates at the first
invalid character or lone trailing digit (Node never raises here). -/
def hexDecodeTrunc : List Char → List Nat
  | c1 :: c2 :: rest =>
    match hexDigitVal c1, hexDigitVal c2 with
    | some h, some l => (h * 16 + l) :: hexDecodeTrunc rest
    | _, _ => []
  | _ => []

/-- CTR-mode XOR of a byte list against keystream `f`, starting at byte
position `i`. -/
def ctrXorFrom (f : Nat → Nat) : Nat → List Nat → List Nat
  | _, [] => []
  | i, b :: bs => (b ^^^ (f i % 256)) :: ctrXorFrom f (i + 1) bs

/-- One whole CTR encryption/decryption pass (`cipher.update` + `final`). -/
def ctrXor (f : Nat → Nat) (bs : List Nat) : List Nat := ctrXorFrom f 0 bs

/-- JS `String.prototype.split(":")` at the character level. -/
def splitOnColon : List Char → List (List Char)
  | [] => [[]]
  | c :: rest =>
    if c = ':' then [] :: splitOnColon rest
    else
      match splitOnColon rest with
      | [] => [[c]]
      | h :: t => (c :: h) :: t

/-- The IV supply: a stream of outputs of `randomBytes(16)` plus a cursor.
The invariants record what the real RNG guarantees: each draw is 16 bytes,
each byte below 256. -/
structure RandState where
  ivs : Nat → List Nat
  ctr : Nat
  ivs_len : ∀ n, (ivs n).length = 16
  ivs_lt : ∀ n, ∀ b ∈ ivs n, b < 256

/-- Advance the IV supply past one `randomBytes(16)` call. -/
def RandState.bump (st : RandState) : RandState := { st with ctr := st.ctr + 1 }

/-- A configured `regexToSanitize` entry, modelled by its match interface:
`exec s` returns the decomposition of `s` at the first match (text before,
the match, text after), or `none` when the pattern does not match.  The
invariants hold for every real (non-empty-match) global regex. -/
structure GPattern where
  exec : List Char → Option (List Char × List Char × List Char)
  exec_split : ∀ s a m b, exec s = some (a, m, b) → s = a ++ m ++ b
  exec_ne : ∀ s a m b, exec s = some (a, m, b) → m ≠ []

/-- The `PiiSanitizerConfig` interface.  Route-list entries are modelled as
strings: `Array.prototype.includes` compares with SameValueZero, so a
`RegExp` entry can never equal a string route and is inert.  `disable`
defaults to false; the optional fields keep their presence/absence
(`Option`), since the source branches on truthiness of the whole field. -/
structure PiiSanitizerConfig where
  signingSecret : String
  allowlistRoutes : Option (List String) := none
  denylistRoutes : Option (List String) := none
  disable : Bool := false
  regexToSanitize : Option (List GPattern) := none
  fieldsToSanitize : Option (List String) := none
  fieldsToSkip : Option (List String) := none
  maxStringScanLen : Option Nat := none

/-- The `Sanitizer` class: its configuration plus the AES-256-CTR keystream
determined by `getKey()` (SHA-256 of the signing secret).  `ks iv i` is the
keystream byte at position `i` under IV `iv`. -/
structure Sanitizer where
  cfg : PiiSanitizerConfig
  ks : List Nat → Nat → Nat

/-- `Sanitizer.encodeValue` at the character level: draw a fresh 16-byte IV,
CTR-encrypt the UTF-8 bytes, and render `hex(iv) ++ ":" ++ hex(cipher)`. -/
def encodeValueChars (ks : List Nat → Nat → Nat) (v : List Char)
    (st : RandState) : List Char × RandState :=
  let iv := st.ivs st.ctr
  (hexEncode iv ++ ':' :: hexEncode (ctrXor (ks iv) (utf8Encodes v)), st.bump)

/-- `Sanitizer.decodeValue` at the character level.  `data.split(":")`
destructures only the first two segments; a missing second segment makes
`Buffer.from(undefined, "hex")` throw; `createDecipheriv` throws when the
IV is not 16 bytes; hex decoding truncates silently; CTR decryption and
`toString("utf8")` never throw. -/
def decodeValueChars (ks : List Nat → Nat → Nat) (data : List Char) :
    Except JsErr (List Char) :=
  let parts := splitOnColon data
  match parts.head?, parts[1]? with
  | some ivHex, some encHex =>
    let iv := hexDecodeTrunc ivHex
    let encryptedText := hexDecodeTrunc encHex
    if iv.length = 16 then .ok (utf8DecodeLossy (ctrXor (ks iv) encryptedText))
    else .error .invalidIvLength
  | _, _ => .error .bufferFromUndefined

/-- `Sanitizer.decodeValue` on strings. -/
def decodeValueStr (ks : List Nat → Nat → Nat) (data : String) :
    Except JsErr String :=
  (decodeValueChars ks data.data).map fun l => ⟨l⟩

/-- `Sanitizer.maskPattern`: the switch of the source — every arm encrypts
the value. -/
def maskPattern (ks : List Nat → Nat → Nat) (piiType : PiiType)
    (val : List Char) (st : RandState) : List Char × RandState :=
  match piiType with
  | .aadhar => encodeValueChars ks val st
  | .credit_card => encodeValueChars ks val st
  | .email => encodeValueChars ks val st
  | .cvv => encodeValueChars ks val st
  | .pan_card => encodeValueChars ks val st
  | .password => encodeValueChars ks val st
  | .phone => encodeValueChars ks val st
  | .custom => encodeValueChars ks val st

/-- `val.replace(re, (m) => this.maskPattern('custom', m))` for a global
regex: repeatedly split at the first match, mask the match (drawing a fresh
IV each time), continue after it. -/
def replaceGSt (p : GPattern) (ks : List Nat → Nat → Nat) (s : List Char)
    (st : RandState) : List Char × RandState :=
  match h : p.exec s with
  | none => (s, st)
  | some (a, m, b) =>
    let (tok, st') := maskPattern ks .custom m st
    let (rest, st'') := replaceGSt p ks b st'
    (a ++ tok ++ rest, st'')
termination_by s.length
decreasing_by
  have hs := p.exec_split s a m b h
  have hm := p.exec_ne s a m b h
  simp [hs]
  cases m with
  | nil => exact absurd rfl hm
  | cons x xs => simp; omega

/-- The decomposition of `s` under repeated first-match splitting:
`matchSplit p s = (g0, [(m1, g1), ..., (mk, gk)])` with
`s = g0 ++ m1 ++ g1 ++ ... ++ mk ++ gk`, the `mi` being the matches and the
`gi` the non-matching gaps. -/
def matchSplit (p : GPattern) (s : List Char) :
    List Char × List (List Char × List Char) :=
  match h : p.exec s with
  | none => (s, [])
  | some (a, m, b) =>
    let (g, l) := matchSplit p b
    (a, (m, g) :: l)
termination_by s.length
decreasing_by
  have hs := p.exec_split s a m b h
  have hm := p.exec_ne s a m b h
  simp [hs]
  cases m with
  | nil => exact absurd rfl hm
  | cons x xs => simp; omega

/-- Mask each match of a decomposition in order, threading the IV supply,
and interleave with the gaps. -/
def maskMatches (ks : List Nat → Nat → Nat) :
    List (List Char × List Char) → RandState → List Char × RandState
  | [], st => ([], st)
  | (m, g) :: rest, st =>
    let (tok, st') := maskPattern ks .custom m st
    let (r, st'') := maskMatches ks rest st'
    (tok ++ g ++ r, st'')

/-- The `fieldsToSkip` membership test of the walker:
`this.cfg.fieldsToSkip?.includes(key)`; `includes(undefined)` on a string
list is false. -/
def skipHit (fieldsToSkip : Option (List String)) (key : Option String) : Bool :=
  match fieldsToSkip, key with
  | some l, some k => decide (k ∈ l)
  | _, _ => false

/-- The second half of the walker's string branch: the `fieldsToSanitize`
check and the auto-detect default.  `fieldsToSanitize.includes(undefined)`
is false, so an `undefined` key passes through there; in the auto branch
`detectPatternToSanitize` begins with `key.toLowerCase()`, which throws on
an `undefined` key. -/
def afterRegex (S : Sanitizer) (key : Option String) (s : String)
    (st : RandState) : Except JsErr (String × RandState) :=
  match S.cfg.fieldsToSanitize with
  | some l =>
    match key with
    | some k =>
      if k ∈ l then
        let (r, st') := maskPattern S.ks (detectPatternToSanitize k s) s.data st
        .ok (⟨r⟩, st')
      else .ok (s, st)
    | none => .ok (s, st)
  | none =>
    match key with
    | none => .error .undefinedToLowerCase
    | some k =>
      let t := detectPatternToSanitize k s
      if t = .custom then .ok (s, st)
      else
        let (r, st') := maskPattern S.ks t s.data st
        .ok (⟨r⟩, st')

/-- The string branch of `Sanitizer.walk`: skip list, then the
`regexToSanitize` loop (`?.length` is falsy for an absent or empty list;
the first pattern whose `test` succeeds drives a global replace and later
patterns are never tried), then `afterRegex`. -/
def walkStr (S : Sanitizer) (key : Option String) (s : String)
    (st : RandState) : Except JsErr (String × RandState) :=
  if skipHit S.cfg.fieldsToSkip key then .ok (s, st)
  else
    match S.cfg.regexToSanitize with
    | some ps =>
      if ps.isEmpty then afterRegex S key s st
      else
        match ps.find? (fun p => (p.exec s.data).isSome) with
        | some p =>
          let (r, st') := replaceGSt p S.ks s.data st
          .ok (⟨r⟩, st')
        | none => afterRegex S key s st
    | none => afterRegex S key s st

/-- `Sanitizer.walk`: plain objects are rebuilt key by key; strings go to
the leaf policy with `path[path.length - 1]` as field name; every other
value (arrays, numbers, booleans, null, undefined) reaches the end of the
function body and yields `undefined`. -/
def walk (S : Sanitizer) : Value → List String → RandState →
    Except JsErr (Value × RandState)
  | .obj kvs, path, st =>
    match walkFields S kvs path st with
    | .ok (kvs', st') => .ok (.obj kvs', st')
    | .error e => .error e
  | .str s, path, st =>
    match walkStr S (path.getLast?) s st with
    | .ok (s', st') => .ok (.str s', st')
    | .error e => .error e
  | _, _, st => .ok (.undef, st)
where
  /-- The `Object.entries` loop of `walk`, in entry order. -/
  walkFields (S : Sanitizer) : List (String × Value) → List String → RandState →
      Except JsErr (List (String × Value) × RandState)
    | [], _, st => .ok ([], st)
    | (k, v) :: rest, path, st =>
      match walk S v (path ++ [k]) st with
      | .error e => .error e
      | .ok (v', st') =>
        match walkFields S rest path st' with
        | .error e => .error e
        | .ok (rest', st'') => .ok ((k, v') :: rest', st'')

/-- `Sanitizer.sanitizeObject`: the route gate, then the walk from the empty
path.  An empty allowlist is truthy in JS, so `some []` puts every route
out of scope, as in the source. -/
def sanitizeObject (S : Sanitizer) (obj : Value) (route : String)
    (st : RandState) : Except JsErr (Value × RandState) :=
  if S.cfg.disable then .ok (obj, st)
  else if (match S.cfg.allowlistRoutes with
           | some l => decide (route ∉ l)
           | none => false) then .ok (obj, st)
  else if (match S.cfg.denylistRoutes with
           | some l => decide (route ∈ l)
           | none => false) then .ok (obj, st)
  else walk S obj [] st

/-- First-match splitter for the literal single-character regex `/c/g`
(used to instantiate `GPattern` concretely). -/
def execLit (c : Char) : List Char → Option (List Char × List Char × List Char)
  | [] => none
  | a :: rest =>
    if a = c then some ([], [a], rest)
    else
      match execLit c rest with
      | some (pre, m, b) => some (a :: pre, m, b)
      | none => none

theorem execLit_split (c : Char) (s a m b : List Char)
    (h : execLit c s = some (a, m, b)) : s = a ++ m ++ b := by
  induction s generalizing a m b with
  | nil => simp [execLit] at h
  | cons x xs ih =>
    by_cases hx : x = c
    · simp [execLit, hx] at h
      obtain ⟨h1, h2, h3⟩ := h
      subst h1; subst h2; subst h3
      simp [hx]
    · simp [execLit, hx] at h
      match he : execLit c xs with
      | none => rw [he] at h; simp at h
      | some (pre, m', b') =>
        rw [he] at h
        simp at h
        obtain ⟨h1, h2, h3⟩ := h
        subst h1; subst h2; subst h3
        have := ih pre m' b' he
        simp [this]

theorem execLit_ne (c : Char) (s a m b : List Char)
    (h : execLit c s = some (a, m, b)) : m ≠ [] := by
  induction s generalizing a m b with
  | nil => simp [execLit] at h
  | cons x xs ih =>
    by_cases hx : x = c
    · simp [execLit, hx] at h
      obtain ⟨-, h2, -⟩ := h
      subst h2; simp
    · simp [execLit, hx] at h
      match he : execLit c xs with
      | none => rw [he] at h; simp at h
      | some (pre, m', b') =>
        rw [he] at h
        simp at h
        obtain ⟨-, h2, -⟩ := h
        subst h2
        exact ih pre m' b' he

/-- The regex `/c/g` for a literal character, as a `GPattern`. -/
def litPat (c : Char) : GPattern :=
  ⟨execLit c, execLit_split c, execLit_ne c⟩

/-- A concrete IV supply (all-zero IVs), for evaluating the model on
concrete inputs. -/
def st0 : RandState where
  ivs := fun _ => List.replicate 16 0
  ctr := 0
  ivs_len := fun _ => by simp
  ivs_lt := fun _ b hb => by
    have := List.eq_of_mem_replicate hb
    omega

/-- A concrete keystream (identically zero), for evaluating the model on
concrete inputs. -/
def ksZero : List Nat → Nat → Nat := fun _ _ => 0

theorem hexDigitVal_hexDigitChar : ∀ m < 16, hexDigitVal (hexDigitChar m) = some m := by
  decide

theorem hexDigitChar_ne_colon : ∀ m < 16, hexDigitChar m ≠ ':' := by
  decide

theorem hexDecodeTrunc_hexEncode (bs : List Nat) (hb : ∀ b ∈ bs, b < 256) :
    hexDecodeTrunc (hexEncode bs) = bs := by
  induction bs with
  | nil => rfl
  | cons b rest ih =>
    have hblt : b < 256 := hb b (by simp)
    have h1 : b / 16 < 16 := by omega
    have h2 : b % 16 < 16 := by omega
    have e1 := hexDigitVal_hexDigitChar (b / 16) h1
    have e2 := hexDigitVal_hexDigitChar (b % 16) h2
    have hcons : hexEncode (b :: rest)
        = hexDigitChar (b / 16) :: hexDigitChar (b % 16) :: hexEncode rest := rfl
    rw [hcons]
    simp only [hexDecodeTrunc, e1, e2]
    rw [show b / 16 * 16 + b % 16 = b by omega]
    rw [ih (fun x hx => hb x (by simp [hx]))]

theorem colon_not_mem_hexEncode (bs : List Nat) (hb : ∀ b ∈ bs, b < 256) :
    ':' ∉ hexEncode bs := by
  induction bs with
  | nil => simp [hexEncode]
  | cons b rest ih =>
    have hblt : b < 256 := hb b (by simp)
    simp only [hexEncode, List.flatMap_cons, List.mem_append, hexByte]
    intro hmem
    rcases hmem with hmem | hmem
    · have c1 := hexDigitChar_ne_colon (b / 16) (by omega)
      have c2 := hexDigitChar_ne_colon (b % 16) (by omega)
      simp at hmem
      rcases hmem with h | h
      · exact c1 h.symm
      · exact c2 h.symm
    · exact ih (fun x hx => hb x (by simp [hx])) hmem

theorem splitOnColon_no_colon (b : List Char) (h : ':' ∉ b) :
    splitOnColon b = [b] := by
  induction b with
  | nil => rfl
  | cons c rest ih =>
    have hc : c ≠ ':' := by intro hc; exact h (by simp [hc])
    have hrest : ':' ∉ rest := fun hm => h (by simp [hm])
    simp [splitOnColon, hc, ih hrest]

theorem splitOnColon_append (a b : List Char) (h : ':' ∉ a) :
    splitOnColon (a ++ ':' :: b) = a :: splitOnColon b := by
  induction a with
  | nil => simp [splitOnColon]
  | cons c rest ih =>
    have hc : c ≠ ':' := by intro hc; exact h (by simp [hc])
    have hrest : ':' ∉ rest := fun hm => h (by simp [hm])
    have hne : splitOnColon (rest ++ ':' :: b) = rest :: splitOnColon b := ih hrest
    simp [splitOnColon, hc, hne]

theorem ctrXorFrom_involutive (f : Nat → Nat) (i : Nat) (bs : List Nat) :
    ctrXorFrom f i (ctrXorFrom f i bs) = bs := by
  induction bs generalizing i with
  | nil => rfl
  | cons b rest ih =>
    simp [ctrXorFrom, ih, Nat.xor_assoc]

theorem ctrXorFrom_lt (f : Nat → Nat) (i : Nat) (bs : List Nat)
    (hb : ∀ b ∈ bs, b < 256) : ∀ b ∈ ctrXorFrom f i bs, b < 256 := by
  induction bs generalizing i with
  | nil => simp [ctrXorFrom]
  | cons b rest ih =>
    intro x hx
    simp [ctrXorFrom] at hx
    rcases hx with hx | hx
    · subst hx
      have h1 : b < 2 ^ 8 := hb b (by simp)
      have h2 : f i % 256 < 2 ^ 8 := by omega
      have := Nat.xor_lt_two_pow h1 h2
      omega
    · exact ih (i + 1) (fun y hy => hb y (by simp [hy])) x hx

theorem ctrXorFrom_length (f : Nat → Nat) (i : Nat) (bs : List Nat) :
    (ctrXorFrom f i bs).length = bs.length := by
  induction bs generalizing i with
  | nil => rfl
  | cons b rest ih => simp [ctrXorFrom, ih]

theorem char_toNat_lt (c : Char) : c.toNat < 1114112 := by
  have h := c.valid
  simp [Char.toNat]
  rcases h with h | h <;> omega

theorem utf8DecodeLossy_encodeChar (c : Char) (rest : List Nat) :
    utf8DecodeLossy (utf8EncodeChar c ++ rest) = c :: utf8DecodeLossy rest := by
  have hlt : c.toNat < 1114112 := char_toNat_lt c
  by_cases h1 : c.toNat < 128
  · have e : utf8EncodeChar c = [c.toNat] := by simp [utf8EncodeChar, h1]
    rw [e]
    rw [show ([c.toNat] : List Nat) ++ rest = c.toNat :: rest by simp]
    rw [utf8DecodeLossy.eq_def]
    simp [h1, Char.ofNat_toNat]
  · by_cases h2 : c.toNat < 2048
    · have e : utf8EncodeChar c = [192 + c.toNat / 64, 128 + c.toNat % 64] := by
        simp [utf8EncodeChar, h1, h2]
      rw [e]
      rw [show ([192 + c.toNat / 64, 128 + c.toNat % 64] : List Nat) ++ rest
        = (192 + c.toNat / 64) :: (128 + c.toNat % 64) :: rest by simp]
      rw [utf8DecodeLossy.eq_def]
      have hcont : utf8Cont (128 + c.toNat % 64) = true := by
        simp [utf8Cont]; omega
      simp only []
      rw [if_neg (by omega)]
      rw [if_pos (by exact ⟨by omega, by omega, hcont⟩)]
      rw [show (192 + c.toNat / 64 - 192) * 64 + (128 + c.toNat % 64 - 128) = c.toNat by omega]
      rw [Char.ofNat_toNat]
    · by_cases h3 : c.toNat < 65536
      · have e : utf8EncodeChar c = [224 + c.toNat / 4096, 128 + (c.toNat / 64) % 64, 128 + c.toNat % 64] := by
          simp [utf8EncodeChar, h1, h2, h3]
        rw [e]
        rw [show ([224 + c.toNat / 4096, 128 + (c.toNat / 64) % 64, 128 + c.toNat % 64] : List Nat) ++ rest
          = (224 + c.toNat / 4096) :: (128 + (c.toNat / 64) % 64) :: (128 + c.toNat % 64) :: rest by simp]
        rw [utf8DecodeLossy.eq_def]
        simp only []
        have hcont2 : utf8Cont (128 + (c.toNat / 64) % 64) = true := by simp [utf8Cont]; omega
        have hcont3 : utf8Cont (128 + c.toNat % 64) = true := by simp [utf8Cont]; omega
        rw [if_neg (by omega)]
        rw [if_neg (fun hh => by have := hh.2.1; omega)]
        rw [if_pos (by exact ⟨by omega, by omega, hcont2, hcont3⟩)]
        rw [show (224 + c.toNat / 4096 - 224) * 4096 + (128 + (c.toNat / 64) % 64 - 128) * 64
            + (128 + c.toNat % 64 - 128) = c.toNat by omega]
        rw [Char.ofNat_toNat]
      · have e : utf8EncodeChar c = [240 + c.toNat / 262144, 128 + (c.toNat / 4096) % 64,
            128 + (c.toNat / 64) % 64, 128 + c.toNat % 64] := by
          simp [utf8EncodeChar, h1, h2, h3]
        rw [e]
        rw [show ([240 + c.toNat / 262144, 128 + (c.toNat / 4096) % 64,
            128 + (c.toNat / 64) % 64, 128 + c.toNat % 64] : List Nat) ++ rest
          = (240 + c.toNat / 262144) :: (128 + (c.toNat / 4096) % 64)
            :: (128 + (c.toNat / 64) % 64) :: (128 + c.toNat % 64) :: rest by simp]
        rw [utf8DecodeLossy.eq_def]
        simp only []
        have hcont2 : utf8Cont (128 + (c.toNat / 4096) % 64) = true := by simp [utf8Cont]; omega
        have hcont3 : utf8Cont (128 + (c.toNat / 64) % 64) = true := by simp [utf8Cont]; omega
        have hcont4 : utf8Cont (128 + c.toNat % 64) = true := by simp [utf8Cont]; omega
        rw [if_neg (by omega)]
        rw [if_neg (fun hh => by have := hh.2.1; omega)]
        rw [if_neg (fun hh => by have := hh.2.1; omega)]
        rw [if_pos (by exact ⟨by omega, by omega, hcont2, hcont3, hcont4⟩)]
        rw [show (240 + c.toNat / 262144 - 240) * 262144 + (128 + (c.toNat / 4096) % 64 - 128) * 4096
            + (128 + (c.toNat / 64) % 64 - 128) * 64 + (128 + c.toNat % 64 - 128) = c.toNat by omega]
        rw [Char.ofNat_toNat]

theorem utf8DecodeLossy_utf8Encodes (s : List Char) :
    utf8DecodeLossy (utf8Encodes s) = s := by
  induction s with
  | nil => rw [show utf8Encodes [] = [] from rfl, utf8DecodeLossy.eq_def]
  | cons c rest ih =>
    have h : utf8Encodes (c :: rest) = utf8EncodeChar c ++ utf8Encodes rest := by
      simp [utf8Encodes]
    rw [h, utf8DecodeLossy_encodeChar, ih]

theorem utf8EncodeChar_lt (c : Char) : ∀ b ∈ utf8EncodeChar c, b < 256 := by
  have hlt := char_toNat_lt c
  intro b hb
  by_cases h1 : c.toNat < 128
  · simp [utf8EncodeChar, h1] at hb; omega
  · by_cases h2 : c.toNat < 2048
    · simp [utf8EncodeChar, h1, h2] at hb; omega
    · by_cases h3 : c.toNat < 65536
      · simp [utf8EncodeChar, h1, h2, h3] at hb; omega
      · simp [utf8EncodeChar, h1, h2, h3] at hb; omega

theorem utf8Encodes_lt (s : List Char) : ∀ b ∈ utf8Encodes s, b < 256 := by
  intro b hb
  simp [utf8Encodes] at hb
  obtain ⟨c, -, hc⟩ := hb
  exact utf8EncodeChar_lt c b hc

/-- C2: for every string `s`, every keystream and every state of the IV
supply, decoding the token `encodeValue` produces for `s` returns exactly
`s`. -/
theorem decode_encode_roundtrip (ks : List Nat → Nat → Nat) (s : String)
    (st : RandState) :
    decodeValueStr ks ⟨(encodeValueChars ks s.data st).1⟩ = .ok s := by
  have hivlt := st.ivs_lt st.ctr
  have hivlen := st.ivs_len st.ctr
  have hctlt : ∀ b ∈ ctrXor (ks (st.ivs st.ctr)) (utf8Encodes s.data), b < 256 :=
    ctrXorFrom_lt _ _ _ (utf8Encodes_lt _)
  have hsplit : splitOnColon (hexEncode (st.ivs st.ctr)
        ++ ':' :: hexEncode (ctrXor (ks (st.ivs st.ctr)) (utf8Encodes s.data)))
      = [hexEncode (st.ivs st.ctr),
         hexEncode (ctrXor (ks (st.ivs st.ctr)) (utf8Encodes s.data))] := by
    rw [splitOnColon_append _ _ (colon_not_mem_hexEncode _ hivlt),
        splitOnColon_no_colon _ (colon_not_mem_hexEncode _ hctlt)]
  simp only [decodeValueStr, decodeValueChars, encodeValueChars]
  rw [hsplit]
  simp only [List.head?, List.getElem?_cons_succ, List.getElem?_cons_zero]
  rw [hexDecodeTrunc_hexEncode _ hivlt, hexDecodeTrunc_hexEncode _ hctlt]
  rw [if_pos hivlen]
  rw [show ctrXor (ks (st.ivs st.ctr))
        (ctrXor (ks (st.ivs st.ctr)) (utf8Encodes s.data)) = utf8Encodes s.data
      from ctrXorFrom_involutive _ _ _]
  rw [utf8DecodeLossy_utf8Encodes]
  rfl

theorem digitLead_of_twelve (s : List Char) (h : digitLead 12 s = true) :
    digitLead 10 s = true := by
  simp only [digitLead, Bool.and_eq_true, decide_eq_true_eq] at h ⊢
  obtain ⟨hlen, hall⟩ := h
  refine ⟨by omega, ?_⟩
  have ht : s.take 10 = (s.take 12).take 10 := by
    rw [List.take_take]
    norm_num
  rw [ht]
  exact List.all_eq_true.mpr fun x hx =>
    List.all_eq_true.mp hall x (List.mem_of_mem_take hx)

/-- C9: the classifier can never return `aadhar`: a value starting with 12
digits also starts with 10 digits, so the earlier phone rule fires first
and the aadhar branch is dead. -/
theorem detect_never_aadhar (key value : String) :
    detectPatternToSanitize key value ≠ .aadhar := by
  intro h
  simp only [detectPatternToSanitize] at h
  split at h
  · exact PiiType.noConfusion h
  · split at h
    · exact PiiType.noConfusion h
    · split at h
      · rename_i hph h12
        have h10 := digitLead_of_twelve value.data h12
        simp [h10] at hph
      · split at h
        · exact PiiType.noConfusion h
        · split at h
          · exact PiiType.noConfusion h
          · split at h
            · exact PiiType.noConfusion h
            · split at h
              · exact PiiType.noConfusion h
              · exact PiiType.noConfusion h

/-- C4 counterexample: the claim "classify(card, 4111111111111111) returns
credit_card" is false on the code — the value starts with 10 digits, so the
phone rule (rule 2) fires before the credit-card rule. -/
theorem detect_card_4111_not_credit_card :
    ¬ detectPatternToSanitize "card" "4111111111111111" = .credit_card := by
  decide

/-- C4 amended: `classify("card", "4111111111111111")` returns `phone`
under the ordered first-match rules, because the value starts with (at
least) 10 digits and the phone rule precedes the credit-card rule. -/
theorem detect_card_4111_is_phone :
    detectPatternToSanitize "card" "4111111111111111" = .phone := by
  decide

/-- A concrete sanitizer with an empty optional configuration, used to
evaluate the model on concrete inputs. -/
def S0 : Sanitizer := ⟨{ signingSecret := "secret" }, ksZero⟩

/-- C1 (failing input): `walk` has no branch for arrays or non-string
scalars, so they all fall off the end of the function and come back as
`undefined`: sanitizing `{n: 42, a: [1, 2], b: true, z: null}` on an
in-scope route yields `{n: undefined, a: undefined, b: undefined,
z: undefined}` instead of the unchanged object the traversal is specified
to produce. -/
theorem walk_drops_arrays_and_scalars :
    sanitizeObject S0 (.obj [("n", .num 42), ("a", .arr [.num 1, .num 2]),
      ("b", .bool true), ("z", .null)]) "/route" st0
    = .ok (.obj [("n", .undef), ("a", .undef), ("b", .undef), ("z", .undef)],
        st0) := rfl

/-- `maskPattern` encrypts identically in every arm of its switch. -/
theorem maskPattern_eq_encode (ks : List Nat → Nat → Nat) (t : PiiType)
    (v : List Char) (st : RandState) :
    maskPattern ks t v st = encodeValueChars ks v st := by
  cases t <;> rfl

/-- C6: a string leaf whose field name is in `fieldsToSkip` is returned
unchanged, whatever the rest of the configuration (regex patterns,
`fieldsToSanitize` membership, auto-detection) would have done. -/
theorem skip_overrides_all (S : Sanitizer) (path : List String) (k : String)
    (s : String) (st : RandState) (l : List String)
    (hskip : S.cfg.fieldsToSkip = some l) (hk : path.getLast? = some k)
    (hmem : k ∈ l) :
    walk S (.str s) path st = .ok (.str s, st) := by
  simp [walk, walkStr, hk, skipHit, hskip, hmem]

/-- A sanitizer whose skip list, explicit-field list and regex list all
name the same field, to witness the precedence of the skip list. -/
def S6 : Sanitizer :=
  ⟨{ signingSecret := "secret",
     regexToSanitize := some [litPat '9'],
     fieldsToSanitize := some ["phone"],
     fieldsToSkip := some ["phone"] }, ksZero⟩

/-- C6 witness: field `phone` is skipped even though the regex `/9/g`
matches the value, `phone` is in `fieldsToSanitize`, and auto-detect would
classify it. -/
theorem skip_overrides_all_witness :
    walk S6 (.str "999") ["phone"] st0 = .ok (.str "999", st0) :=
  skip_overrides_all S6 ["phone"] "phone" "999" st0 ["phone"] rfl rfl
    (by decide)

/-- C3: when `fieldsToSanitize` is configured and non-empty and neither the
skip list nor a regex rule is in play, a string leaf is replaced by an
`iv:cipher` token exactly when its field name is in the list (whatever the
value looks like), and passes through unchanged otherwise (auto-detect is
suppressed). -/
theorem fieldsToSanitize_exclusive (S : Sanitizer) (l : List String)
    (path : List String) (k : String) (s : String) (st : RandState)
    (hl : S.cfg.fieldsToSanitize = some l) (hne : l ≠ [])
    (hskip : S.cfg.fieldsToSkip = none) (hre : S.cfg.regexToSanitize = none)
    (hk : path.getLast? = some k) :
    walk S (.str s) path st =
      if k ∈ l then
        .ok (.str ⟨hexEncode (st.ivs st.ctr) ++ ':' ::
          hexEncode (ctrXor (S.ks (st.ivs st.ctr)) (utf8Encodes s.data))⟩,
          st.bump)
      else .ok (.str s, st) := by
  by_cases hmem : k ∈ l
  · simp [walk, walkStr, hk, skipHit, hskip, hre, afterRegex, hl, hmem,
      maskPattern_eq_encode, encodeValueChars]
  · simp [walk, walkStr, hk, skipHit, hskip, hre, afterRegex, hl, hmem]

/-- A sanitizer configured with `fieldsToSanitize = ["password"]` only. -/
def S3 : Sanitizer :=
  ⟨{ signingSecret := "secret", fieldsToSanitize := some ["password"] },
   ksZero⟩

/-- C3 witness: with `fieldsToSanitize = ["password"]`, an email-shaped
value under field `email` is left alone, while field `password` is replaced
by an `iv:cipher` token. -/
theorem fieldsToSanitize_exclusive_witness :
    walk S3 (.str "john@example.com") ["email"] st0
      = .ok (.str "john@example.com", st0)
    ∧ walk S3 (.str "hunter2") ["password"] st0
      = .ok (.str ⟨hexEncode (st0.ivs st0.ctr) ++ ':' ::
          hexEncode (ctrXor (ksZero (st0.ivs st0.ctr))
            (utf8Encodes "hunter2".data))⟩, st0.bump) := by
  constructor
  · have h := fieldsToSanitize_exclusive S3 ["password"] ["email"] "email"
      "john@example.com" st0 rfl (by decide) rfl rfl rfl
    simpa using h
  · have h := fieldsToSanitize_exclusive S3 ["password"] ["password"]
      "password" "hunter2" st0 rfl (by decide) rfl rfl rfl
    simpa using h

/-- C10: sanitizing a bare string as the root value on an in-scope route,
with no matching regex rule and `fieldsToSanitize` absent, throws: the path
is empty, so the field name is `undefined` and `key.toLowerCase()` in the
classifier raises a TypeError. -/
theorem bare_string_root_throws (S : Sanitizer) (s : String) (route : String)
    (st : RandState)
    (hdis : S.cfg.disable = false)
    (hallow : ∀ l, S.cfg.allowlistRoutes = some l → route ∈ l)
    (hdeny : ∀ l, S.cfg.denylistRoutes = some l → route ∉ l)
    (hre : ∀ ps, S.cfg.regexToSanitize = some ps →
      ∀ p ∈ ps, p.exec s.data = none)
    (hfs : S.cfg.fieldsToSanitize = none) :
    sanitizeObject S (.str s) route st = .error .undefinedToLowerCase := by
  have hA : (match S.cfg.allowlistRoutes with
      | some l => decide (route ∉ l)
      | none => false) = false := by
    cases hAl : S.cfg.allowlistRoutes with
    | none => rfl
    | some l => simp [hallow l hAl]
  have hD : (match S.cfg.denylistRoutes with
      | some l => decide (route ∈ l)
      | none => false) = false := by
    cases hDl : S.cfg.denylistRoutes with
    | none => rfl
    | some l => simp [hdeny l hDl]
  have hskip : skipHit S.cfg.fieldsToSkip none = false := by
    cases S.cfg.fieldsToSkip <;> rfl
  have hwstr : walkStr S none s st
      = .error .undefinedToLowerCase := by
    unfold walkStr
    rw [hskip]
    cases hRe : S.cfg.regexToSanitize with
    | none => simp [afterRegex, hfs]
    | some ps =>
      have hfind : ps.find? (fun p => (p.exec s.data).isSome) = none := by
        rw [List.find?_eq_none]
        intro p hp
        simp [hre ps hRe p hp]
      simp [hfind, afterRegex, hfs]
  unfold sanitizeObject
  rw [hdis, hA, hD]
  simp [walk, hwstr]

/-- C10 witness: the empty-config sanitizer on root value `"hello"` and
route `/r` throws the TypeError. -/
theorem bare_string_root_throws_witness :
    sanitizeObject S0 (.str "hello") "/r" st0 = .error .undefinedToLowerCase :=
  bare_string_root_throws S0 "hello" "/r" st0 rfl
    (by intro l h; cases h) (by intro l h; cases h)
    (by intro ps h; cases h) rfl

theorem replaceGSt_of_exec_none (p : GPattern) (ks : List Nat → Nat → Nat)
    (s : List Char) (st : RandState) (h : p.exec s = none) :
    replaceGSt p ks s st = (s, st) := by
  rw [replaceGSt.eq_def]
  split
  · rfl
  · rename_i a m b heq
    rw [h] at heq
    cases heq

theorem replaceGSt_of_exec_some (p : GPattern) (ks : List Nat → Nat → Nat)
    (s : List Char) (st : RandState) (a m b : List Char)
    (h : p.exec s = some (a, m, b)) :
    replaceGSt p ks s st
      = (a ++ (maskPattern ks .custom m st).1
          ++ (replaceGSt p ks b (maskPattern ks .custom m st).2).1,
         (replaceGSt p ks b (maskPattern ks .custom m st).2).2) := by
  rw [replaceGSt.eq_def]
  split
  · rename_i heq
    rw [h] at heq
    cases heq
  · rename_i a' m' b' heq
    rw [h] at heq
    injection heq with heq'
    simp only [Prod.mk.injEq] at heq'
    obtain ⟨rfl, rfl, rfl⟩ := heq'
    rfl

theorem matchSplit_of_exec_none (p : GPattern) (s : List Char)
    (h : p.exec s = none) : matchSplit p s = (s, []) := by
  rw [matchSplit.eq_def]
  split
  · rfl
  · rename_i a m b heq
    rw [h] at heq
    cases heq

theorem matchSplit_of_exec_some (p : GPattern) (s : List Char)
    (a m b : List Char) (h : p.exec s = some (a, m, b)) :
    matchSplit p s = (a, (m, (matchSplit p b).1) :: (matchSplit p b).2) := by
  rw [matchSplit.eq_def]
  split
  · rename_i heq
    rw [h] at heq
    cases heq
  · rename_i a' m' b' heq
    rw [h] at heq
    injection heq with heq'
    simp only [Prod.mk.injEq] at heq'
    obtain ⟨rfl, rfl, rfl⟩ := heq'
    rfl

/-- A sanitizer with `maxStringScanLen = 1` and the pattern `/9/g`, to show
the cap has no effect on scanning. -/
def S8 : Sanitizer :=
  ⟨{ signingSecret := "secret",
     regexToSanitize := some [litPat '9'],
     maxStringScanLen := some 1 }, ksZero⟩

/-- C8 counterexample: with `maxStringScanLen = 1`, the five-character
string `"zz9zz"` (longer than the cap, and one auto-detect would leave
alone) is still scanned: the configured pattern fires and the digit is
replaced by a token, so the output differs from the input. -/
theorem maxStringScanLen_counterexample :
    walk S8 (.str "zz9zz") ["f"] st0 ≠ .ok (.str "zz9zz", st0) := by
  have hexec : (litPat '9').exec "zz9zz".data
      = some ("zz".data, ['9'], "zz".data) := rfl
  have hexec2 : (litPat '9').exec "zz".data = none := rfl
  have hrep : replaceGSt (litPat '9') ksZero "zz9zz".data st0
      = ("zz00000000000000000000000000000000:39zz".data, st0.bump) := by
    rw [replaceGSt_of_exec_some _ _ _ _ _ _ _ hexec,
        replaceGSt_of_exec_none _ _ _ _ hexec2]
    rfl
  have hwalk : walk S8 (.str "zz9zz") ["f"] st0
      = .ok (.str ⟨(replaceGSt (litPat '9') ksZero "zz9zz".data st0).1⟩,
             (replaceGSt (litPat '9') ksZero "zz9zz".data st0).2) := rfl
  rw [hwalk, hrep]
  intro h
  simp only [Except.ok.injEq, Prod.mk.injEq, Value.str.injEq] at h
  exact absurd h.1 (by decide)

/-- C8 amended: `maxStringScanLen` is stored in the configuration but never
consulted: on every string leaf the walker's behavior is identical for any
two settings of the cap. -/
theorem maxStringScanLen_unused (cfg : PiiSanitizerConfig)
    (ks : List Nat → Nat → Nat) (x y : Option Nat) (s : String)
    (path : List String) (st : RandState) :
    walk ⟨{ cfg with maxStringScanLen := x }, ks⟩ (.str s) path st
      = walk ⟨{ cfg with maxStringScanLen := y }, ks⟩ (.str s) path st := rfl

theorem exec_nil (p : GPattern) : p.exec [] = none := by
  cases h : p.exec [] with
  | none => rfl
  | some t =>
    obtain ⟨a, m, b⟩ := t
    have hs := p.exec_split [] a m b h
    have hm := p.exec_ne [] a m b h
    have : m = [] := by
      have := congrArg List.length hs
      simp at this
      exact List.eq_nil_of_length_eq_zero (by omega)
    exact absurd this hm

/-- Repeated first-match splitting decomposes the input: the gaps and the
matches, interleaved, reconstruct the original string. -/
theorem matchSplit_recompose_aux (p : GPattern) :
    ∀ n (s : List Char), s.length ≤ n →
    s = (matchSplit p s).1
      ++ ((matchSplit p s).2.map fun mg => mg.1 ++ mg.2).flatten := by
  intro n
  induction n with
  | zero =>
    intro s hs
    have : s = [] := List.eq_nil_of_length_eq_zero (by omega)
    subst this
    rw [matchSplit_of_exec_none p [] (exec_nil p)]
    rfl
  | succ n ih =>
    intro s hs
    cases h : p.exec s with
    | none =>
      rw [matchSplit_of_exec_none p s h]
      simp
    | some t =>
      obtain ⟨a, m, b⟩ := t
      have hsplit := p.exec_split s a m b h
      have hmne := p.exec_ne s a m b h
      have hblen : b.length ≤ n := by
        have := congrArg List.length hsplit
        simp at this
        have hm1 : 1 ≤ m.length := by
          cases m with
          | nil => exact absurd rfl hmne
          | cons x xs => simp
        omega
      rw [matchSplit_of_exec_some p s a m b h]
      have hb := ih b hblen
      simp only [List.map_cons, List.flatten_cons]
      calc s = a ++ m ++ b := hsplit
        _ = a ++ m ++ ((matchSplit p b).1
              ++ ((matchSplit p b).2.map fun mg => mg.1 ++ mg.2).flatten) := by
            rw [← hb]
        _ = a ++ ((m ++ (matchSplit p b).1)
              ++ ((matchSplit p b).2.map fun mg => mg.1 ++ mg.2).flatten) := by
            simp [List.append_assoc]

theorem matchSplit_recompose (p : GPattern) (s : List Char) :
    s = (matchSplit p s).1
      ++ ((matchSplit p s).2.map fun mg => mg.1 ++ mg.2).flatten :=
  matchSplit_recompose_aux p s.length s le_rfl

/-- The replace loop of the walker equals masking each match of the
decomposition in order and interleaving with the untouched gaps. -/
theorem replaceGSt_eq_maskMatches_aux (p : GPattern)
    (ks : List Nat → Nat → Nat) :
    ∀ n (s : List Char) (st : RandState), s.length ≤ n →
    replaceGSt p ks s st
      = ((matchSplit p s).1 ++ (maskMatches ks (matchSplit p s).2 st).1,
         (maskMatches ks (matchSplit p s).2 st).2) := by
  intro n
  induction n with
  | zero =>
    intro s st hs
    have : s = [] := List.eq_nil_of_length_eq_zero (by omega)
    subst this
    rw [replaceGSt_of_exec_none p ks [] st (exec_nil p),
        matchSplit_of_exec_none p [] (exec_nil p)]
    rfl
  | succ n ih =>
    intro s st hs
    cases h : p.exec s with
    | none =>
      rw [replaceGSt_of_exec_none p ks s st h, matchSplit_of_exec_none p s h]
      simp [maskMatches]
    | some t =>
      obtain ⟨a, m, b⟩ := t
      have hsplit := p.exec_split s a m b h
      have hmne := p.exec_ne s a m b h
      have hblen : b.length ≤ n := by
        have := congrArg List.length hsplit
        simp at this
        have hm1 : 1 ≤ m.length := by
          cases m with
          | nil => exact absurd rfl hmne
          | cons x xs => simp
        omega
      rw [replaceGSt_of_exec_some p ks s st a m b h,
          matchSplit_of_exec_some p s a m b h]
      rw [ih b (maskPattern ks .custom m st).2 hblen]
      simp [maskMatches, List.append_assoc]

theorem replaceGSt_eq_maskMatches (p : GPattern) (ks : List Nat → Nat → Nat)
    (s : List Char) (st : RandState) :
    replaceGSt p ks s st
      = ((matchSplit p s).1 ++ (maskMatches ks (matchSplit p s).2 st).1,
         (maskMatches ks (matchSplit p s).2 st).2) :=
  replaceGSt_eq_maskMatches_aux p ks s.length s st le_rfl

theorem find?_append_first {α : Type} (pred : α → Bool) (ps1 : List α)
    (p : α) (ps2 : List α) (h1 : ∀ q ∈ ps1, pred q = false)
    (hp : pred p = true) :
    (ps1 ++ p :: ps2).find? pred = some p := by
  induction ps1 with
  | nil => simp [List.find?, hp]
  | cons q rest ih =>
    have hq := h1 q (by simp)
    simp only [List.cons_append, List.find?, hq]
    exact ih fun r hr => h1 r (by simp [hr])

/-- C5: for a string leaf not excluded by the skip list, when `p` is the
first configured pattern (in configuration order) that matches the value,
the walker returns the value with every match of `p` individually replaced
by an encrypted token (masked as `custom`, each with a fresh IV) and every
non-matching portion preserved — later patterns are never consulted — and
the gaps and matches reconstruct the original value. -/
theorem regex_first_match_masks (S : Sanitizer) (ps : List GPattern)
    (path : List String) (s : String) (st : RandState) (p : GPattern)
    (ps1 ps2 : List GPattern)
    (hre : S.cfg.regexToSanitize = some ps)
    (hskip : skipHit S.cfg.fieldsToSkip path.getLast? = false)
    (hps : ps = ps1 ++ p :: ps2)
    (hfirst : ∀ q ∈ ps1, q.exec s.data = none)
    (hp : (p.exec s.data).isSome = true) :
    walk S (.str s) path st
      = .ok (.str ⟨(matchSplit p s.data).1
          ++ (maskMatches S.ks (matchSplit p s.data).2 st).1⟩,
          (maskMatches S.ks (matchSplit p s.data).2 st).2)
    ∧ s.data = (matchSplit p s.data).1
        ++ ((matchSplit p s.data).2.map fun mg => mg.1 ++ mg.2).flatten := by
  have hfind : ps.find? (fun q => (q.exec s.data).isSome) = some p := by
    rw [hps]
    exact find?_append_first _ _ _ _ (fun q hq => by simp [hfirst q hq]) hp
  have hne : ps.isEmpty = false := by
    rw [hps]; cases ps1 <;> rfl
  have hws : walkStr S path.getLast? s st
      = .ok (⟨(matchSplit p s.data).1
          ++ (maskMatches S.ks (matchSplit p s.data).2 st).1⟩,
          (maskMatches S.ks (matchSplit p s.data).2 st).2) := by
    unfold walkStr
    rw [hskip]
    simp only [Bool.false_eq_true, if_false, hre, hne, hfind]
    rw [replaceGSt_eq_maskMatches]
  refine ⟨?_, matchSplit_recompose p s.data⟩
  simp [walk, hws]

/-- A sanitizer configured with the single pattern `/9/g`. -/
def S5 : Sanitizer :=
  ⟨{ signingSecret := "secret", regexToSanitize := some [litPat '9'] },
   ksZero⟩

/-- C5 witness: the theorem applied to `/9/g` over `"a9b9"`. -/
theorem regex_first_match_masks_witness :
    walk S5 (.str "a9b9") ["f"] st0
      = .ok (.str ⟨(matchSplit (litPat '9') "a9b9".data).1
          ++ (maskMatches S5.ks (matchSplit (litPat '9') "a9b9".data).2 st0).1⟩,
          (maskMatches S5.ks (matchSplit (litPat '9') "a9b9".data).2 st0).2)
    ∧ "a9b9".data = (matchSplit (litPat '9') "a9b9".data).1
        ++ ((matchSplit (litPat '9') "a9b9".data).2.map
              fun mg => mg.1 ++ mg.2).flatten :=
  regex_first_match_masks S5 [litPat '9'] ["f"] "a9b9" st0 (litPat '9') [] []
    rfl rfl rfl (by intro q hq; cases hq) rfl

theorem decodeValueChars_extra_segment (ks : List Nat → Nat → Nat)
    (ivPart seg2 extra : List Char) (h1 : ':' ∉ ivPart) (h2 : ':' ∉ seg2) :
    decodeValueChars ks (ivPart ++ ':' :: (seg2 ++ ':' :: extra))
      = decodeValueChars ks (ivPart ++ ':' :: seg2) := by
  have hs1 : splitOnColon (ivPart ++ ':' :: (seg2 ++ ':' :: extra))
      = ivPart :: seg2 :: splitOnColon extra := by
    rw [splitOnColon_append _ _ h1, splitOnColon_append _ _ h2]
  have hs2 : splitOnColon (ivPart ++ ':' :: seg2) = [ivPart, seg2] := by
    rw [splitOnColon_append _ _ h1, splitOnColon_no_colon _ h2]
  simp only [decodeValueChars, hs1, hs2, List.head?,
    List.getElem?_cons_succ, List.getElem?_cons_zero]

theorem decodeValueChars_two_segments (ks : List Nat → Nat → Nat)
    (ivPart seg2 : List Char) (h1 : ':' ∉ ivPart) (h2 : ':' ∉ seg2) :
    decodeValueChars ks (ivPart ++ ':' :: seg2)
      = if (hexDecodeTrunc ivPart).length = 16
        then .ok (utf8DecodeLossy
            (ctrXor (ks (hexDecodeTrunc ivPart)) (hexDecodeTrunc seg2)))
        else .error .invalidIvLength := by
  have hs2 : splitOnColon (ivPart ++ ':' :: seg2) = [ivPart, seg2] := by
    rw [splitOnColon_append _ _ h1, splitOnColon_no_colon _ h2]
  simp only [decodeValueChars, hs2, List.head?,
    List.getElem?_cons_succ, List.getElem?_cons_zero]

theorem decodeValueChars_no_colon (ks : List Nat → Nat → Nat)
    (data : List Char) (hd : ':' ∉ data) :
    decodeValueChars ks data = .error .bufferFromUndefined := by
  have hs3 : splitOnColon data = [data] := splitOnColon_no_colon _ hd
  simp only [decodeValueChars, hs3, List.head?,
    List.getElem?_cons_succ, List.getElem?_cons_zero]
  rfl

/-- C7 counterexample: a three-segment token (two colons) whose first
segment is a valid 32-hex-character IV is decoded successfully — the
destructuring of `split(":")` silently ignores the third segment — where
the claim requires a `MalformedToken` error for any input that does not
split into exactly two hex segments. -/
theorem decode_extra_segments_ok :
    decodeValueStr ksZero
      ⟨hexEncode (List.replicate 16 0) ++ ':' :: ("6162".data ++ ':' :: "zz".data)⟩
      = .ok "ab" := by
  have hlt : ∀ b ∈ List.replicate 16 0, b < 256 := by
    intro b hb
    have := List.eq_of_mem_replicate hb
    omega
  have hnc : ':' ∉ hexEncode (List.replicate 16 0) :=
    colon_not_mem_hexEncode _ hlt
  unfold decodeValueStr
  rw [show (⟨hexEncode (List.replicate 16 0)
      ++ ':' :: ("6162".data ++ ':' :: "zz".data)⟩ : String).data
    = hexEncode (List.replicate 16 0)
      ++ ':' :: ("6162".data ++ ':' :: "zz".data) from rfl]
  rw [decodeValueChars_extra_segment ksZero _ _ _ hnc (by decide),
      decodeValueChars_two_segments ksZero _ _ hnc (by decide),
      hexDecodeTrunc_hexEncode _ hlt]
  rw [if_pos (by simp)]
  rw [show hexDecodeTrunc "6162".data = utf8Encodes "ab".data from rfl]
  rw [show ctrXor (ksZero (List.replicate 16 0)) (utf8Encodes "ab".data)
      = utf8Encodes "ab".data by
    rw [show utf8Encodes "ab".data = [97, 98] from rfl]
    rfl]
  rw [utf8DecodeLossy_utf8Encodes]
  rfl

/-- C7 amended: `decodeValue` looks only at the first two colon-separated
segments: extra segments beyond the second are ignored, not an error; hex
segments are truncated at invalid characters rather than raising; decoding
a two-segment token succeeds precisely when the (truncated) first segment
is a 16-byte IV and otherwise fails with the `createDecipheriv` error; an
input with no colon at all fails with the `Buffer.from(undefined)`
TypeError. -/
theorem decode_segments_behavior (ks : List Nat → Nat → Nat)
    (ivPart seg2 extra data : List Char)
    (h1 : ':' ∉ ivPart) (h2 : ':' ∉ seg2) (hd : ':' ∉ data) :
    (decodeValueChars ks (ivPart ++ ':' :: (seg2 ++ ':' :: extra))
       = decodeValueChars ks (ivPart ++ ':' :: seg2))
    ∧ (decodeValueChars ks (ivPart ++ ':' :: seg2)
       = if (hexDecodeTrunc ivPart).length = 16
         then .ok (utf8DecodeLossy
             (ctrXor (ks (hexDecodeTrunc ivPart)) (hexDecodeTrunc seg2)))
         else .error .invalidIvLength)
    ∧ decodeValueChars ks data = .error .bufferFromUndefined :=
  ⟨decodeValueChars_extra_segment ks ivPart seg2 extra h1 h2,
   decodeValueChars_two_segments ks ivPart seg2 h1 h2,
   decodeValueChars_no_colon ks data hd⟩

/-- C7 witness for the amended behavior, at a concrete (too short) IV
segment `aa`, payload segment `6162`, trailing junk segment `zz`, and the
colon-free input `deadbeef`. -/
theorem decode_segments_behavior_witness :
    (decodeValueChars ksZero ("aa".data ++ ':' :: ("6162".data ++ ':' :: "zz".data))
       = decodeValueChars ksZero ("aa".data ++ ':' :: "6162".data))
    ∧ (decodeValueChars ksZero ("aa".data ++ ':' :: "6162".data)
       = if (hexDecodeTrunc "aa".data).length = 16
         then .ok (utf8DecodeLossy
             (ctrXor (ksZero (hexDecodeTrunc "aa".data))
               (hexDecodeTrunc "6162".data)))
         else .error .invalidIvLength)
    ∧ decodeValueChars ksZero "deadbeef".data = .error .bufferFromUndefined :=
  decode_segments_behavior ksZero "aa".data "6162".data "zz".data
    "deadbeef".data (by decide) (by decide) (by decide)
